import Mathlib

set_option autoImplicit false

/-
Shallow embedding of the multi-tenant job-queue and notification subsystem of
the Whisper-Gradioe repository (backend/job_queue/queue_manager.py,
backend/job_queue/websocket_manager.py, backend/routers/websocket/router.py).

Modelling conventions:
- uuid values (job ids, tenant ids, user ids, connection identities) are Nat;
  uuid comparison order is its integer order, matching Nat order.
- The jobs/workflows/usage tables are lists of rows; SQLAlchemy `first()` on an
  id filter is `List.find?`.  Ids are unique in any reachable database.
- The filesystem is a map from path to file size in bytes
  (`os.path.exists p` = `(fs p).isSome`, `os.path.getsize p` = the size).
  File sizes in MB are exact rationals, abstracting Python floats.
- Python truthiness gates (`if result_path:`, `if processing_time:`) are
  modelled by `truthy_str` / `truthy_int` on optional values.
- Exceptions raised and caught inside the worker are modelled by total
  functions returning the resulting state; a raised-and-caught error value is
  carried explicitly (an `Option String` / `Except`).
- Handler invocations and database status writes are recorded in an explicit
  event trace so that claims of the form "no handler is invoked" are statable.
-/

namespace WhisperQueue

/-- Job lifecycle states stored in the `status` column of the jobs table. -/
inductive JobStatus where
  | queued
  | processing
  | completed
  | failed
  | canceled
deriving DecidableEq, Repr

/-- A row of the jobs table, with the fields read and written by the queue
manager.  Timestamps are abstract ticks (Nat). -/
structure Job where
  id : Nat
  tenant_id : Nat
  user_id : Nat
  status : JobStatus
  file_path : String
  workflow_id : Option Nat
  result_path : Option String
  error : Option String
  processing_time : Option Int
  completed_at : Option Nat
  updated_at : Nat
deriving DecidableEq, Repr

/-- A row of the usage-records table created by `_record_usage`. -/
structure UsageRecord where
  tenant_id : Nat
  user_id : Nat
  job_id : Nat
  resource_type : String
  amount : ℚ
  unit : String
deriving DecidableEq, Repr

/-- A workflow node as inspected by the job-type scan: only its `type` key is
relevant to job dispatch. -/
structure WorkflowNode where
  type : Option String
deriving DecidableEq, Repr

/-- A row of the workflows table.  `config = none` models a configuration whose
JSON is invalid or has no node list (both behave as the empty config `{}` in
`_process_job` / `_process_job_async`); `config = some nodes` models a parsed
`\x7b"nodes": [...]\x7d` object. -/
structure Workflow where
  id : Nat
  config : Option (List WorkflowNode)
deriving DecidableEq, Repr

/-- The persistent store visible to the queue manager. -/
structure DB where
  jobs : List Job
  workflows : List Workflow
  usage : List UsageRecord
deriving DecidableEq, Repr

/-- The filesystem: path to size in bytes when the file exists. -/
def FS : Type := String → Option Nat

/-- Python truthiness of an optional string (`None` and `""` are falsy). -/
def truthy_str : Option String → Bool
  | none => false
  | some s => !(s == "")

/-- Python truthiness of an optional integer (`None` and `0` are falsy). -/
def truthy_int : Option Int → Bool
  | none => false
  | some n => !(n == 0)

/-- Database query `db.query(Job).filter(Job.id == jid).first()`. -/
def find_job (db : DB) (jid : Nat) : Option Job :=
  db.jobs.find? (fun j => j.id == jid)

/-- Commit a mutation of the first row with the given id (the row returned by
`first()` is the one mutated and committed). -/
def replace_first_job : List Job → Nat → Job → List Job
  | [], _, _ => []
  | j :: rest, jid, nj =>
      if j.id == jid then nj :: rest else j :: replace_first_job rest jid nj

/-- Embedding of `JobQueue._record_usage`: always adds a processing-seconds
record; adds a storage record in MB when the job's result path is truthy and
the file exists (an `OSError` from `getsize` is logged and skips the storage
record; here existence and size are a single lookup). -/
def record_usage (fs : FS) (job : Job) (processing_time : Int) (db : DB) : DB :=
  let processing_usage : UsageRecord :=
    { tenant_id := job.tenant_id, user_id := job.user_id, job_id := job.id,
      resource_type := "processing", amount := (processing_time : ℚ), unit := "seconds" }
  let db1 : DB := { db with usage := db.usage ++ [processing_usage] }
  match job.result_path with
  | some rp =>
      if rp ≠ "" then
        match fs rp with
        | some size_bytes =>
            let storage_usage : UsageRecord :=
              { tenant_id := job.tenant_id, user_id := job.user_id, job_id := job.id,
                resource_type := "storage",
                amount := (size_bytes : ℚ) / (1024 * 1024), unit := "MB" }
            { db1 with usage := db1.usage ++ [storage_usage] }
        | none => db1
      else db1
  | none => db1

/-- Embedding of `JobQueue._update_job_status`.  Each optional argument is
gated by Python truthiness, exactly as in the source; usage is recorded only
for `completed` with a truthy `processing_time` argument. -/
def update_job_status (fs : FS) (now : Nat) (jid : Nat) (status : JobStatus)
    (result_path : Option String) (error : Option String)
    (processing_time : Option Int) (db : DB) : DB :=
  match find_job db jid with
  | none => db
  | some job0 =>
      let job1 := { job0 with status := status, updated_at := now }
      let job2 := if status = JobStatus.completed then
          { job1 with completed_at := some now } else job1
      let job3 := if truthy_str result_path then
          { job2 with result_path := result_path } else job2
      let job4 := if truthy_str error then
          { job3 with error := error } else job3
      let job5 := if truthy_int processing_time then
          { job4 with processing_time := processing_time } else job4
      let db1 : DB := { db with jobs := replace_first_job db.jobs jid job5 }
      if status = JobStatus.completed then
        match processing_time with
        | some pt => if pt ≠ 0 then record_usage fs job5 pt db1 else db1
        | none => db1
      else db1

/-- Substring containment, Python `needle in hay`. -/
def contains_sub (needle hay : String) : Bool :=
  decide (needle.toList <:+: hay.toList)

/-- The `job_data` dictionary prepared by `_process_job` and consumed by
`_process_job_async`. -/
structure JobData where
  job_id : Nat
  tenant_id : Nat
  user_id : Nat
  file_path : String
  job_type : Option String
  workflow_config : Option (List WorkflowNode)
deriving Repr

/-- One step of the node scan in `_process_job_async`: a later matching node
overwrites the type chosen from an earlier one. -/
def node_type_update (acc : String) (node : WorkflowNode) : String :=
  match node.type with
  | none => acc
  | some t =>
      let tl := t.toLower
      if contains_sub "transcription" tl then "transcription"
      else if contains_sub "translation" tl then "translation"
      else if contains_sub "diarization" tl then "diarization"
      else acc

/-- Job-type determination in `_process_job_async`: an explicit `job_type` key
wins; otherwise the workflow config's node list is scanned; default is
`"transcription"`. -/
def determine_job_type (jd : JobData) : String :=
  match jd.job_type with
  | some t => t
  | none =>
      match jd.workflow_config with
      | some nodes => nodes.foldl node_type_update "transcription"
      | none => "transcription"

/-- Observable events of one worker iteration. -/
inductive Event where
  | handlerInvoked (job_type : String) (job_id : Nat)
  | statusWrite (job_id : Nat) (status : JobStatus)
deriving DecidableEq, Repr

/-- Outcome of running a registered handler: the database it leaves behind,
the error it raised (if any) after its own commits, and its event trace. -/
structure HandlerResult where
  db : DB
  err : Option String
  events : List Event

/-- A registered job handler. -/
def Handler : Type := JobData → DB → HandlerResult

/-- The handler registry `JobQueue._job_handlers` (a dict: keys unique). -/
def Handlers : Type := List (String × Handler)

/-- Handler lookup: `self._job_handlers[job_type]` guarded by membership. -/
def lookup_handler (hs : Handlers) (jt : String) : Option Handler :=
  (hs.find? (fun p => p.1 == jt)).map Prod.snd

/-- The error text of the `ValueError` raised when no handler is registered. -/
def no_handler_message (jt : String) : String :=
  "No handler registered for job type: " ++ jt

/-- A status write event is observable exactly when `_update_job_status` finds
the job row and commits. -/
def status_write_events (db : DB) (jid : Nat) (st : JobStatus) : List Event :=
  match find_job db jid with
  | none => []
  | some _ => [Event.statusWrite jid st]

/-- Embedding of `JobQueue._process_job_async`.  The surrounding
`try/except Exception` is modelled by totality: every branch, including the
no-handler `ValueError` and a handler-raised error, ends in a `failed` status
write instead of propagating. -/
def process_job_async (hs : Handlers) (fs : FS) (now : Nat) (jd : JobData)
    (db : DB) : DB × List Event :=
  let jt := determine_job_type jd
  match lookup_handler hs jt with
  | none =>
      (update_job_status fs now jd.job_id JobStatus.failed none
        (some (no_handler_message jt)) none db,
       status_write_events db jd.job_id JobStatus.failed)
  | some h =>
      let r := h jd db
      match r.err with
      | none =>
          (update_job_status fs now jd.job_id JobStatus.completed none none none r.db,
           Event.handlerInvoked jt jd.job_id ::
             (r.events ++ status_write_events r.db jd.job_id JobStatus.completed))
      | some e =>
          (update_job_status fs now jd.job_id JobStatus.failed none (some e) none r.db,
           Event.handlerInvoked jt jd.job_id ::
             (r.events ++ status_write_events r.db jd.job_id JobStatus.failed))

/-- Workflow-config extraction in `_process_job` (`job.workflow` relation plus
`json.loads` with `JSONDecodeError` handled as the empty config). -/
def job_workflow_config (db : DB) (job : Job) : Option (List WorkflowNode) :=
  match job.workflow_id with
  | none => none
  | some wid =>
      match db.workflows.find? (fun w => w.id == wid) with
      | none => none
      | some w => w.config

/-- The `job_data` dictionary built by `_process_job` (it never sets a
`job_type` key). -/
def mk_job_data (db : DB) (job : Job) (jid tid : Nat) : JobData :=
  { job_id := jid, tenant_id := tid, user_id := job.user_id,
    file_path := job.file_path, job_type := none,
    workflow_config := job_workflow_config db job }

/-- Embedding of `JobQueue._process_job`: load the job scoped to the tenant,
drop if missing, skip if already processing/completed/failed (the `canceled`
status is not in that guard list), else persist `processing` and run
`_process_job_async`. -/
def process_job (hs : Handlers) (fs : FS) (now : Nat) (jid tid : Nat) (db : DB) :
    DB × List Event :=
  match db.jobs.find? (fun j => j.id == jid && j.tenant_id == tid) with
  | none => (db, [])
  | some job =>
      if job.status = JobStatus.processing ∨ job.status = JobStatus.completed ∨
          job.status = JobStatus.failed then
        (db, [])
      else
        let job1 := { job with status := JobStatus.processing, updated_at := now }
        let db1 : DB := { db with jobs := replace_first_job db.jobs jid job1 }
        let jd := mk_job_data db job jid tid
        let r := process_job_async hs fs now jd db1
        (r.1, Event.statusWrite jid JobStatus.processing :: r.2)

/-- An entry of a tenant's `queue.PriorityQueue`: the `(priority, job_id)`
tuple pushed by `enqueue_job`. -/
abbrev Entry : Type := Int × Nat

/-- Python tuple comparison `(p1, j1) <= (p2, j2)`: ascending priority, ties
broken by the job id's natural ordering. -/
def entry_le (a b : Entry) : Bool :=
  a.1 < b.1 || (a.1 == b.1 && a.2 ≤ b.2)

/-- The proposition form of `entry_le` (lexicographic order on entries). -/
def EntryLe (a b : Entry) : Prop :=
  a.1 < b.1 ∨ (a.1 = b.1 ∧ a.2 ≤ b.2)

/-- One `PriorityQueue.get`: remove and return the tuple-least entry (the
first such occurrence).  `none` models `queue.Empty`. -/
def pop_min : List Entry → Option (Entry × List Entry)
  | [] => none
  | e :: rest =>
      match pop_min rest with
      | none => some (e, [])
      | some (m, rest2) =>
          if entry_le e m then some (e, rest) else some (m, e :: rest2)

/-- Repeated `PriorityQueue.get` with explicit fuel (each pop removes one
element, so `l.length` fuel always suffices; see `drain`). -/
def drain_fuel : Nat → List Entry → List Entry
  | 0, _ => []
  | n + 1, l =>
      match pop_min l with
      | none => []
      | some (e, rest) => e :: drain_fuel n rest

/-- Draining a tenant queue with repeated `get`: the order in which the worker
dequeues the enqueued entries. -/
def drain (l : List Entry) : List Entry :=
  drain_fuel l.length l

/-- Association-list lookup, modelling Python `d[k]` guarded by `k in d`
(dict keys are unique in any reachable state). -/
def alist_find {α : Type} (k : Nat) : List (Nat × α) → Option α
  | [] => none
  | p :: rest => if p.1 == k then some p.2 else alist_find k rest

/-- Replace the value stored under a key (no-op when the key is absent),
modelling `d[k] = v` for a key already present. -/
def alist_replace {α : Type} (k : Nat) (v : α) (l : List (Nat × α)) :
    List (Nat × α) :=
  l.map (fun p => if p.1 == k then (k, v) else p)

/-- Remove a key, modelling `del d[k]`. -/
def alist_erase {α : Type} (k : Nat) (l : List (Nat × α)) : List (Nat × α) :=
  l.filter (fun p => !(p.1 == k))

/-- Insert or replace, modelling `d[k] = v`. -/
def alist_upsert {α : Type} (k : Nat) (v : α) (l : List (Nat × α)) :
    List (Nat × α) :=
  match alist_find k l with
  | none => l ++ [(k, v)]
  | some _ => alist_replace k v l

/-- In-memory state of the `JobQueue` scheduler: the tenant queues, the tenant
worker threads (`true` = `is_alive()`), and the running flag. -/
structure SchedulerState where
  queues : List (Nat × List Entry)
  workers : List (Nat × Bool)
  running : Bool
deriving DecidableEq, Repr

/-- The bound passed to `worker.join(timeout=5.0)` in `JobQueue.stop`. -/
def stop_join_timeout_seconds : Nat := 5

/-- The bound passed to `queue.get(timeout=1.0)` in the worker loop. -/
def worker_poll_timeout_seconds : Nat := 1

/-- Embedding of `JobQueue.start`. -/
def scheduler_start (s : SchedulerState) : SchedulerState :=
  if s.running then s else { s with running := true }

/-- Embedding of `JobQueue.stop`: early-return when not running, else flip the
running flag; joining the workers (bounded by `stop_join_timeout_seconds`
each) mutates no scheduler state — workers flip their own liveness when their
loop observes the flag (see `worker_step`). -/
def scheduler_stop (s : SchedulerState) : SchedulerState :=
  if !s.running then s else { s with running := false }

/-- Embedding of `JobQueue.enqueue_job` (under `self._lock`): create the
tenant queue if absent, spawn a worker if absent or not alive, then push the
`(priority, job_id)` tuple. -/
def enqueue_job (s : SchedulerState) (jid tid : Nat) (priority : Int) :
    SchedulerState :=
  let s1 := if (alist_find tid s.queues).isNone then
      { s with queues := s.queues ++ [(tid, [])] } else s
  let need_spawn := match alist_find tid s1.workers with
    | none => true
    | some alive => !alive
  let s2 := if need_spawn then
      { s1 with workers := alist_upsert tid true s1.workers } else s1
  let q := (alist_find tid s2.queues).getD []
  { s2 with queues := alist_replace tid (q ++ [(priority, jid)]) s2.queues }

/-- One iteration of `JobQueue._worker_thread` for one tenant, up to the
dequeue: if the running flag is false the loop exits (the thread dies);
otherwise wait for an entry (timing out when the queue is empty) and remove
it.  Processing of the dequeued entry is `process_job`. -/
def worker_step (s : SchedulerState) (tid : Nat) :
    SchedulerState × Option Entry :=
  if s.running then
    match alist_find tid s.queues with
    | none => (s, none)
    | some q =>
        match pop_min q with
        | none => (s, none)
        | some (e, rest) => ({ s with queues := alist_replace tid rest s.queues }, some e)
  else
    ({ s with workers := alist_replace tid false s.workers }, none)

/-- State of the `ConnectionManager`: `active` is the
tenant → user → connection-list structure, `subs` the per-connection job
subscription sets.  Connections are identified by Nat; dict keys are unique in
any reachable state. -/
structure ConnectionRegistry where
  active : List (Nat × List (Nat × List Nat))
  subs : List (Nat × List Nat)
deriving DecidableEq, Repr

/-- The connections registered for one `(tenant, user)` pair (empty when the
tenant or user key is absent). -/
def conns_of (reg : ConnectionRegistry) (tid uid : Nat) : List Nat :=
  match alist_find tid reg.active with
  | none => []
  | some users => (alist_find uid users).getD []

/-- Remove the first occurrence of an element, modelling `list.remove(x)`
guarded by `x in list` (absent element: no change). -/
def remove_first (c : Nat) : List Nat → List Nat
  | [] => []
  | x :: xs => if x == c then xs else x :: remove_first c xs

/-- Embedding of `ConnectionManager.connect` (after `accept`): register the
connection under tenant → user and reset its subscription set to empty. -/
def connect (reg : ConnectionRegistry) (c tid uid : Nat) : ConnectionRegistry :=
  let users := (alist_find tid reg.active).getD []
  let conns := (alist_find uid users).getD []
  let users2 := alist_upsert uid (conns ++ [c]) users
  { active := alist_upsert tid users2 reg.active,
    subs := alist_upsert c [] reg.subs }

/-- Embedding of `ConnectionManager.disconnect`: remove the connection from
its user's list when present, prune the user entry if its list became empty
and the tenant entry if its user dict became empty, and delete the
connection's subscription set.  Every step is guarded, so the operation is
total (never raises) on arbitrary registries. -/
def disconnect (reg : ConnectionRegistry) (c tid uid : Nat) :
    ConnectionRegistry :=
  let active2 :=
    match alist_find tid reg.active with
    | none => reg.active
    | some users =>
        match alist_find uid users with
        | none => reg.active
        | some conns =>
            let conns2 := remove_first c conns
            let users2 := if conns2 = [] then alist_erase uid users
              else alist_replace uid conns2 users
            if users2 = [] then alist_erase tid reg.active
            else alist_replace tid users2 reg.active
  { active := active2, subs := alist_erase c reg.subs }

/-- Embedding of `ConnectionManager.subscribe_to_job` (guarded by membership
of the connection in the subscription dict). -/
def subscribe_to_job (reg : ConnectionRegistry) (c jid : Nat) :
    ConnectionRegistry :=
  match alist_find c reg.subs with
  | none => reg
  | some s =>
      { reg with subs := alist_replace c (if jid ∈ s then s else s ++ [jid]) reg.subs }

/-- The `job_update` message built by `broadcast_job_update`; the `result` key
is present only when the `result` argument is truthy (a nonempty dict). -/
structure JobUpdateMessage where
  type : String
  job_id : Nat
  status : String
  result : Option (List (String × String))
deriving DecidableEq, Repr

/-- Message construction in `broadcast_job_update`. -/
def mk_job_update_message (jid : Nat) (status : String)
    (result : Option (List (String × String))) : JobUpdateMessage :=
  { type := "job_update", job_id := jid, status := status,
    result := match result with
      | none => none
      | some l => if l = [] then none else some l }

/-- The connections found by scanning every registered subscription set for
the job id (the first delivery pass of `broadcast_job_update`). -/
def subscribed_conns (reg : ConnectionRegistry) (jid : Nat) : List Nat :=
  (reg.subs.filter (fun p => p.2.contains jid)).map Prod.fst

/-- Embedding of `broadcast_job_update`: deliver the built message to every
connection subscribed to the job, then (without deduplication) to every
connection of the owning user via `broadcast_to_user`.  The result is the
delivery list in send order. -/
def broadcast_job_update (reg : ConnectionRegistry) (jid tid uid : Nat)
    (status : String) (result : Option (List (String × String))) :
    List (Nat × JobUpdateMessage) :=
  let msg := mk_job_update_message jid status result
  (subscribed_conns reg jid ++ conns_of reg tid uid).map (fun c => (c, msg))

/-- A parsed client message as a record of the dictionary keys read by
`process_message` (`data.get(k)` is the optional field).  `job_id = none`
models a missing or unparseable uuid string (whose `uuid.UUID` call raises and
is caught by the endpoint's generic handler). -/
structure MsgData where
  type : Option String
  job_id : Option Nat
  role : Option String
deriving DecidableEq, Repr

/-- Server-to-client messages sent by the websocket router. -/
inductive OutMessage where
  | errorMsg (message : String)
  | subscribed (job_id : Nat)
  | unsubscribed (job_id : Nat)
  | pong
  | jobUpdate (job_id : Nat) (status : JobStatus) (result : Option String)
deriving DecidableEq, Repr

/-- Python `str` of the optional value interpolated into the unknown-type
error text. -/
def py_str_opt : Option String → String
  | none => "None"
  | some s => s

/-- Embedding of `routers/websocket/router.process_message`: the replies sent
to the requesting connection for one client message.  `Except.error e` models
an exception raised inside processing (bad uuid, `get_tenant_record_or_404`,
...) that the endpoint's handler turns into an error reply.  The registry
mutation of a successful subscribe/unsubscribe is performed on the connection
manager and does not affect which replies are sent. -/
def process_message (db : DB) (tid uid : Nat) (d : MsgData) :
    Except String (List OutMessage) :=
  if d.type = some "subscribe" then
    match d.job_id with
    | none => Except.error "invalid job id"
    | some jid =>
        match db.jobs.find? (fun j => j.id == jid && j.tenant_id == tid) with
        | none => Except.error "Job not found"
        | some job =>
            if job.user_id ≠ uid ∧ d.role ≠ some "admin" then
              Except.ok [OutMessage.errorMsg "Not authorized to access this job"]
            else
              match db.jobs.find? (fun j => j.id == jid) with
              | none => Except.ok [OutMessage.subscribed jid]
              | some job2 =>
                  let res := if job2.status = JobStatus.completed &&
                      truthy_str job2.result_path then job2.result_path else none
                  Except.ok [OutMessage.subscribed jid,
                    OutMessage.jobUpdate jid job2.status res]
  else if d.type = some "unsubscribe" then
    match d.job_id with
    | none => Except.error "invalid job id"
    | some jid => Except.ok [OutMessage.unsubscribed jid]
  else if d.type = some "ping" then
    Except.ok [OutMessage.pong]
  else
    Except.ok [OutMessage.errorMsg ("Unknown message type: " ++ py_str_opt d.type)]

/-- One iteration of the `websocket_endpoint` receive loop for one raw client
text frame: `none` models text that is not valid JSON.  Returns the replies
sent and whether the handler closed the connection (it never does: both the
JSON error and any processing exception produce an error reply and the loop
continues). -/
def handle_client_text (db : DB) (tid uid : Nat) (parsed : Option MsgData) :
    List OutMessage × Bool :=
  match parsed with
  | none => ([OutMessage.errorMsg "Invalid JSON message"], false)
  | some d =>
      match process_message db tid uid d with
      | Except.ok ms => (ms, false)
      | Except.error e => ([OutMessage.errorMsg e], false)

/-- A filesystem on which no path exists. -/
def fs0 : FS := fun _ => none

/-- A handler that succeeds without touching the database (the registry
accepts any async callable; this is the minimal successful one). -/
def handler_ok : Handler := fun _ db => { db := db, err := none, events := [] }

/-- A registry with the default `transcription` handler registered. -/
def handlers0 : Handlers := [("transcription", handler_ok)]

/-- A queued job row as created by the job router before enqueueing. -/
def job0 : Job :=
  { id := 1, tenant_id := 2, user_id := 3, status := JobStatus.queued,
    file_path := "a.wav", workflow_id := none, result_path := none,
    error := none, processing_time := none, completed_at := none, updated_at := 0 }

/-- A database holding exactly the queued job `job0`. -/
def db0 : DB := { jobs := [job0], workflows := [], usage := [] }

/-- The `job_data` dictionary `_process_job` builds for `job0`. -/
def jd0 : JobData :=
  { job_id := 1, tenant_id := 2, user_id := 3, file_path := "a.wav",
    job_type := none, workflow_config := none }

/-
Helper lemmas about the queue order.
-/

theorem pop_min_eq_none {l : List Entry} (h : pop_min l = none) : l = [] := by
  cases l with
  | nil => rfl
  | cons e rest =>
      simp only [pop_min] at h
      cases hm : pop_min rest with
      | none => rw [hm] at h; exact absurd h (by simp)
      | some p =>
          rw [hm] at h
          cases hle : entry_le e p.1 <;> simp [hle] at h

theorem pop_min_length {l : List Entry} {e : Entry} {rest : List Entry}
    (h : pop_min l = some (e, rest)) : rest.length + 1 = l.length := by
  induction l generalizing e rest with
  | nil => simp [pop_min] at h
  | cons a as ih =>
      simp only [pop_min] at h
      cases hm : pop_min as with
      | none =>
          rw [hm] at h
          have has : as = [] := pop_min_eq_none hm
          simp only [Option.some.injEq, Prod.mk.injEq] at h
          subst has
          simp [← h.2]
      | some p =>
          obtain ⟨m, rest2⟩ := p
          simp only [hm] at h
          by_cases hle : entry_le a m = true
          · rw [if_pos hle] at h
            simp only [Option.some.injEq, Prod.mk.injEq] at h
            simp [← h.2]
          · rw [if_neg hle] at h
            simp only [Option.some.injEq, Prod.mk.injEq] at h
            have := ih hm
            rw [← h.2]
            simp only [List.length_cons]
            omega

theorem entry_le_iff {a b : Entry} : entry_le a b = true ↔ EntryLe a b := by
  simp [entry_le, EntryLe, Bool.or_eq_true, Bool.and_eq_true,
    decide_eq_true_eq, beq_iff_eq]

theorem entryLe_refl (a : Entry) : EntryLe a a := by
  unfold EntryLe; omega

theorem entryLe_trans {a b c : Entry} (h1 : EntryLe a b) (h2 : EntryLe b c) :
    EntryLe a c := by
  unfold EntryLe at *; omega

theorem entryLe_of_not_le {a b : Entry} (h : entry_le a b = false) : EntryLe b a := by
  have hn : ¬ EntryLe a b := by rw [← entry_le_iff]; simp [h]
  unfold EntryLe at *; omega

theorem pop_min_perm {l : List Entry} {e : Entry} {rest : List Entry}
    (h : pop_min l = some (e, rest)) : l.Perm (e :: rest) := by
  induction l generalizing e rest with
  | nil => simp [pop_min] at h
  | cons a as ih =>
      simp only [pop_min] at h
      cases hm : pop_min as with
      | none =>
          rw [hm] at h
          have has : as = [] := pop_min_eq_none hm
          subst has
          simp only [Option.some.injEq, Prod.mk.injEq] at h
          rw [← h.1, ← h.2]
      | some p =>
          obtain ⟨m, rest2⟩ := p
          simp only [hm] at h
          by_cases hle : entry_le a m = true
          · rw [if_pos hle] at h
            simp only [Option.some.injEq, Prod.mk.injEq] at h
            rw [← h.1, ← h.2]
          · rw [if_neg hle] at h
            simp only [Option.some.injEq, Prod.mk.injEq] at h
            have hp := ih hm
            rw [← h.1, ← h.2]
            exact (hp.cons a).trans (List.Perm.swap m a rest2)

theorem pop_min_le {l : List Entry} {e : Entry} {rest : List Entry}
    (h : pop_min l = some (e, rest)) : ∀ x ∈ l, EntryLe e x := by
  induction l generalizing e rest with
  | nil => simp [pop_min] at h
  | cons a as ih =>
      simp only [pop_min] at h
      cases hm : pop_min as with
      | none =>
          rw [hm] at h
          have has : as = [] := pop_min_eq_none hm
          subst has
          simp only [Option.some.injEq, Prod.mk.injEq] at h
          intro x hx
          simp only [List.mem_singleton] at hx
          subst hx
          rw [← h.1]
          exact entryLe_refl _
      | some p =>
          obtain ⟨m, rest2⟩ := p
          simp only [hm] at h
          have ihp := ih hm
          by_cases hle : entry_le a m = true
          · rw [if_pos hle] at h
            simp only [Option.some.injEq, Prod.mk.injEq] at h
            intro x hx
            rw [← h.1]
            rcases List.mem_cons.mp hx with hxa | hxs
            · subst hxa; exact entryLe_refl _
            · exact entryLe_trans (entry_le_iff.mp hle) (ihp x hxs)
          · rw [if_neg hle] at h
            simp only [Option.some.injEq, Prod.mk.injEq] at h
            intro x hx
            rw [← h.1]
            rcases List.mem_cons.mp hx with hxa | hxs
            · subst hxa
              exact entryLe_of_not_le (by simpa using hle)
            · exact ihp x hxs

theorem drain_fuel_perm :
    ∀ (n : Nat) (l : List Entry), l.length ≤ n → (drain_fuel n l).Perm l := by
  intro n
  induction n with
  | zero =>
      intro l hl
      have : l = [] := List.eq_nil_of_length_eq_zero (Nat.le_zero.mp hl)
      subst this
      simp [drain_fuel]
  | succ n ih =>
      intro l hl
      simp only [drain_fuel]
      cases hp : pop_min l with
      | none =>
          have : l = [] := pop_min_eq_none hp
          subst this
          simp
      | some p =>
          obtain ⟨e, rest⟩ := p
          have hlen := pop_min_length hp
          have hperm := pop_min_perm hp
          exact (((ih rest (by omega)).cons e)).trans hperm.symm

theorem drain_fuel_sorted :
    ∀ (n : Nat) (l : List Entry), l.length ≤ n →
      (drain_fuel n l).Pairwise EntryLe := by
  intro n
  induction n with
  | zero => intro l _; simp [drain_fuel]
  | succ n ih =>
      intro l hl
      simp only [drain_fuel]
      cases hp : pop_min l with
      | none => simp
      | some p =>
          obtain ⟨e, rest⟩ := p
          have hlen := pop_min_length hp
          refine List.Pairwise.cons ?_ (ih rest (by omega))
          intro x hx
          have hxr : x ∈ rest := ((drain_fuel_perm n rest (by omega)).mem_iff).mp hx
          have hxl : x ∈ l := (pop_min_perm hp).symm.mem_iff.mp (List.mem_cons_of_mem e hxr)
          exact pop_min_le hp x hxl

/-- C3: within a tenant, the worker dequeues entries in ascending
`(priority, job_id)` order — lower numeric priority first, equal priorities
broken by the job id's natural ordering — and dequeues exactly the enqueued
entries; in particular priorities [3,1,2] for ids A=10, B=11, C=12 are
processed in order B, C, A. -/
theorem claim_c3_priority_order :
    (∀ l : List Entry, (drain l).Pairwise EntryLe ∧ (drain l).Perm l)
    ∧ (drain [((3 : Int), 10), ((1 : Int), 11), ((2 : Int), 12)]).map Prod.snd
        = [11, 12, 10] := by
  constructor
  · intro l
    exact ⟨drain_fuel_sorted l.length l le_rfl, drain_fuel_perm l.length l le_rfl⟩
  · rfl

/-
Helper lemmas about lists and association lists (Python dicts).
-/

theorem mem_remove_first {c x : Nat} :
    ∀ {l : List Nat}, x ∈ remove_first c l → x ∈ l := by
  intro l
  induction l with
  | nil => simp [remove_first]
  | cons a as ih =>
      simp only [remove_first]
      by_cases ha : a = c
      · subst ha
        rw [if_pos (by simp)]
        intro h
        exact List.mem_cons_of_mem _ h
      · rw [if_neg (by simpa using ha)]
        intro h
        rcases List.mem_cons.mp h with h1 | h2
        · exact h1 ▸ List.mem_cons_self a as
        · exact List.mem_cons_of_mem _ (ih h2)

theorem mem_remove_first_of_ne {c x : Nat} (hx : x ≠ c) :
    ∀ {l : List Nat}, x ∈ remove_first c l ↔ x ∈ l := by
  intro l
  induction l with
  | nil => simp [remove_first]
  | cons a as ih =>
      simp only [remove_first]
      by_cases ha : a = c
      · rw [if_pos (by simpa using ha)]
        subst ha
        constructor
        · intro h; exact List.mem_cons_of_mem _ h
        · intro h
          rcases List.mem_cons.mp h with h1 | h2
          · exact absurd h1 hx
          · exact h2
      · rw [if_neg (by simpa using ha)]
        simp [ih]

theorem not_mem_remove_first_of_count {c : Nat} :
    ∀ {l : List Nat}, l.count c ≤ 1 → c ∉ remove_first c l := by
  intro l
  induction l with
  | nil => simp [remove_first]
  | cons a as ih =>
      simp only [remove_first]
      by_cases ha : a = c
      · subst ha
        intro hc
        rw [if_pos (by simp)]
        rw [List.count_cons_self] at hc
        intro hmem
        have h1 : 1 ≤ as.count a := List.one_le_count_iff.mpr hmem
        omega
      · intro hc
        rw [if_neg (by simpa using ha)]
        intro hmem
        rcases List.mem_cons.mp hmem with h1 | h2
        · exact ha h1.symm
        · rw [List.count_cons_of_ne (fun h => ha h.symm)] at hc
          exact ih hc h2

theorem remove_first_eq_nil {c : Nat} :
    ∀ {l : List Nat}, remove_first c l = [] → ∀ x ∈ l, x = c := by
  intro l
  induction l with
  | nil => simp
  | cons a as ih =>
      simp only [remove_first]
      by_cases ha : a = c
      · rw [if_pos (by simpa using ha)]
        intro h x hx
        subst h
        rcases List.mem_cons.mp hx with h1 | h2
        · exact h1.trans ha
        · simp at h2
      · rw [if_neg (by simpa using ha)]
        intro h
        exact absurd h (by simp)

theorem alist_find_replace_self {α : Type} (k : Nat) (v : α) :
    ∀ (l : List (Nat × α)),
      alist_find k (alist_replace k v l) = (alist_find k l).map (fun _ => v) := by
  intro l
  induction l with
  | nil => rfl
  | cons p rest ih =>
      simp only [alist_replace, List.map_cons] at ih ⊢
      by_cases hp : p.1 = k
      · rw [if_pos (by simpa using hp)]
        simp only [alist_find]
        rw [if_pos (by simp), if_pos (by simpa using hp)]
        rfl
      · rw [if_neg (by simpa using hp)]
        simp only [alist_find]
        rw [if_neg (by simpa using hp), if_neg (by simpa using hp)]
        exact ih

theorem alist_find_replace_ne {α : Type} {k k2 : Nat} (h : k2 ≠ k) (v : α) :
    ∀ (l : List (Nat × α)),
      alist_find k2 (alist_replace k v l) = alist_find k2 l := by
  intro l
  induction l with
  | nil => rfl
  | cons p rest ih =>
      by_cases hp : p.1 = k
      · simp only [alist_replace, List.map_cons]
        rw [if_pos (by simpa using hp)]
        simp only [alist_find]
        rw [if_neg (by simpa using fun hk => h hk.symm), if_neg (by simp [hp]; exact fun hk => h hk.symm)]
        exact ih
      · simp only [alist_replace, List.map_cons]
        rw [if_neg (by simpa using hp)]
        simp only [alist_find]
        by_cases hp2 : p.1 = k2
        · rw [if_pos (by simpa using hp2), if_pos (by simpa using hp2)]
        · rw [if_neg (by simpa using hp2), if_neg (by simpa using hp2)]
          exact ih

theorem alist_find_erase_self {α : Type} (k : Nat) :
    ∀ (l : List (Nat × α)), alist_find k (alist_erase k l) = none := by
  intro l
  induction l with
  | nil => rfl
  | cons p rest ih =>
      by_cases hp : p.1 = k
      · simp only [alist_erase, List.filter_cons]
        rw [if_neg (by simp [hp])]
        exact ih
      · simp only [alist_erase, List.filter_cons]
        rw [if_pos (by simpa using hp)]
        simp only [alist_find]
        rw [if_neg (by simpa using hp)]
        exact ih

theorem alist_find_erase_ne {α : Type} {k k2 : Nat} (h : k2 ≠ k) :
    ∀ (l : List (Nat × α)), alist_find k2 (alist_erase k l) = alist_find k2 l := by
  intro l
  induction l with
  | nil => rfl
  | cons p rest ih =>
      by_cases hp : p.1 = k
      · simp only [alist_erase, List.filter_cons]
        rw [if_neg (by simp [hp])]
        simp only [alist_find]
        rw [if_neg (by simp [hp]; exact fun hk => h hk.symm)]
        exact ih
      · simp only [alist_erase, List.filter_cons]
        rw [if_pos (by simpa using hp)]
        simp only [alist_find]
        by_cases hp2 : p.1 = k2
        · rw [if_pos (by simpa using hp2), if_pos (by simpa using hp2)]
        · rw [if_neg (by simpa using hp2), if_neg (by simpa using hp2)]
          exact ih

theorem alist_find_append {α : Type} (k : Nat) :
    ∀ (l1 l2 : List (Nat × α)),
      alist_find k (l1 ++ l2) =
        match alist_find k l1 with
        | some v => some v
        | none => alist_find k l2 := by
  intro l1 l2
  induction l1 with
  | nil => rfl
  | cons p rest ih =>
      simp only [List.cons_append, alist_find]
      by_cases hp : p.1 = k
      · rw [if_pos (by simpa using hp), if_pos (by simpa using hp)]
      · rw [if_neg (by simpa using hp), if_neg (by simpa using hp)]
        exact ih

theorem alist_find_upsert_self {α : Type} (k : Nat) (v : α) (l : List (Nat × α)) :
    alist_find k (alist_upsert k v l) = some v := by
  unfold alist_upsert
  cases hf : alist_find k l with
  | none =>
      rw [alist_find_append, hf]
      simp [alist_find]
  | some w =>
      rw [alist_find_replace_self, hf]
      rfl

theorem alist_find_upsert_ne {α : Type} {k k2 : Nat} (h : k2 ≠ k) (v : α)
    (l : List (Nat × α)) :
    alist_find k2 (alist_upsert k v l) = alist_find k2 l := by
  unfold alist_upsert
  cases hf : alist_find k l with
  | none =>
      rw [alist_find_append]
      cases hf2 : alist_find k2 l with
      | none =>
          simp only [alist_find]
          rw [if_neg (by simpa using fun hk => h hk.symm)]
      | some w => rfl
  | some w => exact alist_find_replace_ne h v l

theorem alist_find_eq_none_mem {α : Type} {k : Nat} {l : List (Nat × α)}
    (h : alist_find k l = none) : ∀ p ∈ l, p.1 ≠ k := by
  induction l with
  | nil => simp
  | cons q rest ih =>
      simp only [alist_find] at h
      by_cases hq : q.1 = k
      · rw [if_pos (by simpa using hq)] at h
        exact absurd h (by simp)
      · rw [if_neg (by simpa using hq)] at h
        intro p hp
        rcases List.mem_cons.mp hp with h1 | h2
        · subst h1; exact hq
        · exact ih h p h2

theorem alist_find_some_mem {α : Type} {k : Nat} {v : α} {l : List (Nat × α)}
    (h : alist_find k l = some v) : (k, v) ∈ l := by
  induction l with
  | nil => simp [alist_find] at h
  | cons q rest ih =>
      simp only [alist_find] at h
      by_cases hq : q.1 = k
      · rw [if_pos (by simpa using hq)] at h
        simp only [Option.some.injEq] at h
        have heq : (k, v) = q := by
          rw [← hq, ← h]
        exact List.mem_cons.mpr (Or.inl heq)
      · rw [if_neg (by simpa using hq)] at h
        exact List.mem_cons_of_mem _ (ih h)

theorem mem_alist_replace {α : Type} {k : Nat} {v : α} {l : List (Nat × α)} {p : Nat × α}
    (h : p ∈ alist_replace k v l) : p = (k, v) ∨ (p ∈ l ∧ p.1 ≠ k) := by
  rcases List.mem_map.mp h with ⟨q, hq, hqe⟩
  by_cases hk : q.1 = k
  · left
    rw [if_pos (by simpa using hk)] at hqe
    exact hqe.symm
  · right
    rw [if_neg (by simpa using hk)] at hqe
    subst hqe
    exact ⟨hq, hk⟩

theorem mem_alist_erase {α : Type} {k : Nat} {l : List (Nat × α)} {p : Nat × α} :
    p ∈ alist_erase k l ↔ p ∈ l ∧ p.1 ≠ k := by
  simp [alist_erase, List.mem_filter]

theorem alist_erase_eq_nil {α : Type} {k : Nat} {l : List (Nat × α)}
    (h : alist_erase k l = []) : ∀ p ∈ l, p.1 = k := by
  intro p hp
  by_contra hne
  have : p ∈ alist_erase k l := mem_alist_erase.mpr ⟨hp, hne⟩
  rw [h] at this
  simp at this

theorem alist_find_nodup_eq {α : Type} {k : Nat} {v : α} :
    ∀ {l : List (Nat × α)}, (l.map Prod.fst).Nodup → alist_find k l = some v →
      ∀ p ∈ l, p.1 = k → p = (k, v) := by
  intro l
  induction l with
  | nil => simp [alist_find]
  | cons q rest ih =>
      intro hnd hf p hp hpk
      simp only [List.map_cons, List.nodup_cons] at hnd
      simp only [alist_find] at hf
      by_cases hq : q.1 = k
      · rw [if_pos (by simpa using hq)] at hf
        simp only [Option.some.injEq] at hf
        rcases List.mem_cons.mp hp with h1 | h2
        · subst h1
          have heq : (k, v) = p := by rw [← hpk, ← hf]
          exact heq.symm
        · exfalso
          apply hnd.1
          have hm : p.1 ∈ rest.map Prod.fst := List.mem_map_of_mem Prod.fst h2
          rw [hpk] at hm
          rw [hq]
          exact hm
      · rw [if_neg (by simpa using hq)] at hf
        rcases List.mem_cons.mp hp with h1 | h2
        · subst h1; exact absurd hpk hq
        · exact ih hnd.2 hf p h2 hpk

/-
Helper lemmas about the job table and status updates.
-/

theorem mem_replace_first_job {jid : Nat} {nj : Job} :
    ∀ {l : List Job} {x : Job}, x ∈ replace_first_job l jid nj → x = nj ∨ x ∈ l := by
  intro l
  induction l with
  | nil => simp [replace_first_job]
  | cons a as ih =>
      intro x
      simp only [replace_first_job]
      by_cases ha : a.id = jid
      · rw [if_pos (by simpa using ha)]
        intro h
        rcases List.mem_cons.mp h with h1 | h2
        · exact Or.inl h1
        · exact Or.inr (List.mem_cons_of_mem _ h2)
      · rw [if_neg (by simpa using ha)]
        intro h
        rcases List.mem_cons.mp h with h1 | h2
        · exact Or.inr (h1 ▸ List.mem_cons_self a as)
        · rcases ih h2 with h3 | h4
          · exact Or.inl h3
          · exact Or.inr (List.mem_cons_of_mem _ h4)

theorem find_replace_first_job {jid : Nat} {nj : Job} (hid : nj.id = jid) :
    ∀ (l : List Job),
      List.find? (fun j => j.id == jid) (replace_first_job l jid nj)
        = (List.find? (fun j => j.id == jid) l).map (fun _ => nj) := by
  intro l
  induction l with
  | nil => rfl
  | cons a as ih =>
      simp only [replace_first_job]
      by_cases ha : a.id = jid
      · rw [if_pos (by simpa using ha)]
        rw [List.find?_cons_of_pos _ (by simpa using hid),
          List.find?_cons_of_pos _ (by simpa using ha)]
        rfl
      · rw [if_neg (by simpa using ha)]
        rw [List.find?_cons_of_neg _ (by simpa using ha),
          List.find?_cons_of_neg _ (by simpa using ha)]
        exact ih

theorem update_job_status_not_found {fs : FS} {now jid : Nat} {st : JobStatus}
    {rp err : Option String} {pt : Option Int} {db : DB}
    (h : find_job db jid = none) :
    update_job_status fs now jid st rp err pt db = db := by
  unfold update_job_status
  rw [h]

theorem update_job_status_completed_bare (fs : FS) (now jid : Nat) (db : DB)
    (j0 : Job) (h : find_job db jid = some j0) :
    update_job_status fs now jid JobStatus.completed none none none db
      = { db with jobs := (replace_first_job db.jobs jid
            { j0 with
              status := JobStatus.completed
              updated_at := now
              completed_at := some now }) } := by
  unfold update_job_status
  rw [h]
  simp [truthy_str, truthy_int]

theorem update_job_status_failed_error (fs : FS) (now jid : Nat) (db : DB)
    (j0 : Job) (e : String) (h : find_job db jid = some j0) (he : e ≠ "") :
    update_job_status fs now jid JobStatus.failed none (some e) none db
      = { db with jobs := (replace_first_job db.jobs jid
            { j0 with
              status := JobStatus.failed
              updated_at := now
              error := some e }) } := by
  unfold update_job_status
  rw [h]
  simp [truthy_str, truthy_int, he]

theorem no_handler_message_ne_empty (jt : String) : no_handler_message jt ≠ "" := by
  unfold no_handler_message
  intro h
  have h2 := congrArg String.length h
  rw [String.length_append] at h2
  have h3 : ("No handler registered for job type: " : String).length = 36 := rfl
  rw [h3] at h2
  have h4 : ("" : String).length = 0 := rfl
  rw [h4] at h2
  omega

theorem update_job_status_completed_falsy (fs : FS) (now jid : Nat) (db : DB)
    (j0 : Job) (h : find_job db jid = some j0) :
    update_job_status fs now jid JobStatus.completed (some "") (some "") (some 0) db
      = { db with jobs := (replace_first_job db.jobs jid
            { j0 with
              status := JobStatus.completed
              updated_at := now
              completed_at := some now }) } := by
  unfold update_job_status
  rw [h]
  simp [truthy_str, truthy_int]

/-- C5: for a job whose determined type has no registered handler, dispatch
fails with the handler-not-found `ValueError`, the job row is persisted as
`failed` with that message surfaced in `job.error`, and the only observable
event is the failed status write — no handler invocation.  That
`process_job_async` is a total function returning this state embodies the
`try/except` that keeps the exception from propagating past the worker loop:
the worker thread does not crash. -/
theorem claim_c5_handler_not_found (hs : Handlers) (fs : FS) (now : Nat)
    (jd : JobData) (db : DB) (j0 : Job)
    (hlookup : lookup_handler hs (determine_job_type jd) = none)
    (hfind : find_job db jd.job_id = some j0) :
    find_job (process_job_async hs fs now jd db).1 jd.job_id
      = some { j0 with
          status := JobStatus.failed
          updated_at := now
          error := some (no_handler_message (determine_job_type jd)) }
    ∧ (process_job_async hs fs now jd db).2
        = [Event.statusWrite jd.job_id JobStatus.failed] := by
  have hid : j0.id = jd.job_id := by
    have h2 := List.find?_some (show List.find? (fun j => j.id == jd.job_id) db.jobs
      = some j0 from by simpa [find_job] using hfind)
    simpa using h2
  simp only [process_job_async, hlookup]
  constructor
  · rw [update_job_status_failed_error fs now jd.job_id db j0 _ hfind
      (no_handler_message_ne_empty _)]
    unfold find_job
    rw [find_replace_first_job (by simpa using hid)]
    rw [show List.find? (fun j => j.id == jd.job_id) db.jobs = some j0 from by
      simpa [find_job] using hfind]
    rfl
  · unfold status_write_events
    rw [hfind]

/-- Witness for C5: the empty handler registry and the database holding the
queued `job0`. -/
theorem claim_c5_handler_not_found_witness :
    find_job (process_job_async [] fs0 4 jd0 db0).1 1
      = some { job0 with
          status := JobStatus.failed
          updated_at := 4
          error := some (no_handler_message "transcription") }
    ∧ (process_job_async [] fs0 4 jd0 db0).2 = [Event.statusWrite 1 JobStatus.failed] :=
  claim_c5_handler_not_found [] fs0 4 jd0 db0 job0 (by rfl) (by rfl)

/-- C1 counterexample: the handler invocation completes successfully (the job
reaches `completed`), yet the job row keeps `result_path = none` and
`processing_time = none` — the worker's success-path status write passes
neither — and the usage table stays empty: no processing-seconds record is
created, contradicting the claim that on success the worker persists
`result_path` and `processing_time` and records usage. -/
theorem claim_c1_counterexample :
    find_job (process_job_async handlers0 fs0 5 jd0 db0).1 1
      = some { job0 with
          status := JobStatus.completed
          updated_at := 5
          completed_at := some 5 }
    ∧ (process_job_async handlers0 fs0 5 jd0 db0).1.usage = [] := by
  constructor <;> rfl

/-- C1 (amended): for every job whose handler invocation completes
successfully, the worker's status write persists only `completed` (with
`completed_at` and `updated_at`); it passes no `result_path` or
`processing_time`, so every row's `result_path`, `processing_time` and
`error` keep the values the handler left behind, and no usage record is
created by the worker. -/
theorem claim_c1_success_write (hs : Handlers) (fs : FS) (now : Nat)
    (jd : JobData) (db : DB) (h : Handler) (r : HandlerResult)
    (hlookup : lookup_handler hs (determine_job_type jd) = some h)
    (hrun : h jd db = r) (hok : r.err = none) :
    (process_job_async hs fs now jd db).1.usage = r.db.usage
    ∧ (∀ j ∈ (process_job_async hs fs now jd db).1.jobs,
        ∃ j1 ∈ r.db.jobs, j.result_path = j1.result_path
          ∧ j.processing_time = j1.processing_time ∧ j.error = j1.error)
    ∧ (∀ j0 : Job, find_job r.db jd.job_id = some j0 →
        find_job (process_job_async hs fs now jd db).1 jd.job_id
          = some { j0 with
              status := JobStatus.completed
              updated_at := now
              completed_at := some now }) := by
  simp only [process_job_async, hlookup, hrun, hok]
  refine ⟨?_, ?_, ?_⟩
  · cases hfind : find_job r.db jd.job_id with
    | none => rw [update_job_status_not_found hfind]
    | some j0 => rw [update_job_status_completed_bare fs now jd.job_id r.db j0 hfind]
  · intro j hj
    cases hfind : find_job r.db jd.job_id with
    | none =>
        rw [update_job_status_not_found hfind] at hj
        exact ⟨j, hj, rfl, rfl, rfl⟩
    | some j0 =>
        rw [update_job_status_completed_bare fs now jd.job_id r.db j0 hfind] at hj
        rcases mem_replace_first_job hj with h1 | h2
        · subst h1
          refine ⟨j0, ?_, rfl, rfl, rfl⟩
          exact List.mem_of_find?_eq_some (by simpa [find_job] using hfind)
        · exact ⟨j, h2, rfl, rfl, rfl⟩
  · intro j0 hfind
    have hid : j0.id = jd.job_id := by
      have h2 := List.find?_some (show List.find? (fun j => j.id == jd.job_id) r.db.jobs
        = some j0 from by simpa [find_job] using hfind)
      simpa using h2
    rw [update_job_status_completed_bare fs now jd.job_id r.db j0 hfind]
    unfold find_job
    rw [find_replace_first_job (by simpa using hid)]
    rw [show List.find? (fun j => j.id == jd.job_id) r.db.jobs = some j0 from by
      simpa [find_job] using hfind]
    rfl

/-- Witness for the amended C1 at the successful no-op handler. -/
theorem claim_c1_success_write_witness :
    (process_job_async handlers0 fs0 5 jd0 db0).1.usage = db0.usage
    ∧ find_job (process_job_async handlers0 fs0 5 jd0 db0).1 1
        = some { job0 with
            status := JobStatus.completed
            updated_at := 5
            completed_at := some 5 } := by
  have h := claim_c1_success_write handlers0 fs0 5 jd0 db0 handler_ok
    { db := db0, err := none, events := [] } (by rfl) (by rfl) (by rfl)
  exact ⟨h.1, h.2.2 job0 (by rfl)⟩

/-- C2: a dequeued job whose persisted status is `processing`, `completed` or
`failed` is skipped: the database is unchanged and the event trace is empty —
no handler invocation, no status write, no notification of any kind.  A job
whose status is `canceled` is not filtered by this guard: processing proceeds,
starting with the write of `processing` status. -/
theorem claim_c2_idempotency_guard (hs : Handlers) (fs : FS) (now jid tid : Nat)
    (db : DB) (job : Job)
    (hfind : db.jobs.find? (fun j => j.id == jid && j.tenant_id == tid) = some job) :
    ((job.status = JobStatus.processing ∨ job.status = JobStatus.completed ∨
        job.status = JobStatus.failed) →
      process_job hs fs now jid tid db = (db, []))
    ∧ (job.status = JobStatus.canceled →
      ∃ tl, (process_job hs fs now jid tid db).2
        = Event.statusWrite jid JobStatus.processing :: tl) := by
  constructor
  · intro hst
    simp only [process_job, hfind]
    rw [if_pos hst]
  · intro hst
    simp only [process_job, hfind]
    rw [if_neg (by simp [hst])]
    exact ⟨_, rfl⟩

/-- Witness for C2: a completed job is skipped; a canceled job is processed. -/
theorem claim_c2_idempotency_guard_witness :
    process_job handlers0 fs0 6 1 2
        { db0 with jobs := [{ job0 with status := JobStatus.completed }] }
      = ({ db0 with jobs := [{ job0 with status := JobStatus.completed }] }, [])
    ∧ ∃ tl, (process_job handlers0 fs0 6 1 2
        { db0 with jobs := [{ job0 with status := JobStatus.canceled }] }).2
      = Event.statusWrite 1 JobStatus.processing :: tl := by
  constructor
  · exact (claim_c2_idempotency_guard handlers0 fs0 6 1 2 _
      { job0 with status := JobStatus.completed } (by rfl)).1 (Or.inr (Or.inl rfl))
  · exact (claim_c2_idempotency_guard handlers0 fs0 6 1 2 _
      { job0 with status := JobStatus.canceled } (by rfl)).2 rfl

/-- C9: calling `_update_job_status` with `completed` and falsy optional
arguments (`processing_time = 0`, `result_path = ""`, `error = ""`) leaves
those job fields unchanged and creates no usage record, because each argument
is gated by truthiness; conversely usage is recorded only when the status is
`completed` and the `processing_time` argument is a nonzero integer. -/
theorem claim_c9_truthiness_gating (fs : FS) (now jid : Nat) (db : DB) :
    ((update_job_status fs now jid JobStatus.completed (some "") (some "") (some 0) db).usage
        = db.usage
      ∧ ∀ j ∈ (update_job_status fs now jid JobStatus.completed (some "") (some "")
          (some 0) db).jobs,
          ∃ j1 ∈ db.jobs, j.result_path = j1.result_path ∧ j.error = j1.error
            ∧ j.processing_time = j1.processing_time)
    ∧ ∀ (st : JobStatus) (rp err : Option String) (pt : Option Int),
        (update_job_status fs now jid st rp err pt db).usage ≠ db.usage →
        st = JobStatus.completed ∧ ∃ n, pt = some n ∧ n ≠ 0 := by
  constructor
  · constructor
    · cases hfind : find_job db jid with
      | none => rw [update_job_status_not_found hfind]
      | some j0 => rw [update_job_status_completed_falsy fs now jid db j0 hfind]
    · intro j hj
      cases hfind : find_job db jid with
      | none =>
          rw [update_job_status_not_found hfind] at hj
          exact ⟨j, hj, rfl, rfl, rfl⟩
      | some j0 =>
          rw [update_job_status_completed_falsy fs now jid db j0 hfind] at hj
          rcases mem_replace_first_job hj with h1 | h2
          · subst h1
            refine ⟨j0, ?_, rfl, rfl, rfl⟩
            exact List.mem_of_find?_eq_some (by simpa [find_job] using hfind)
          · exact ⟨j, h2, rfl, rfl, rfl⟩
  · intro st rp err pt hne
    cases hfind : find_job db jid with
    | none =>
        exfalso
        apply hne
        rw [update_job_status_not_found hfind]
    | some j0 =>
        by_cases hst : st = JobStatus.completed
        · subst hst
          cases pt with
          | none =>
              exfalso
              apply hne
              unfold update_job_status
              rw [hfind]
              rfl
          | some n =>
              by_cases hn : n = 0
              · subst hn
                exfalso
                apply hne
                unfold update_job_status
                rw [hfind]
                rfl
              · exact ⟨rfl, n, rfl, hn⟩
        · exfalso
          apply hne
          unfold update_job_status
          rw [hfind]
          simp only [if_neg hst]

/-- Witness for C9: falsy arguments change nothing; a nonzero
`processing_time` is what makes usage change. -/
theorem claim_c9_truthiness_gating_witness :
    (update_job_status fs0 7 1 JobStatus.completed (some "") (some "") (some 0) db0).usage
      = db0.usage
    ∧ (JobStatus.completed = JobStatus.completed ∧ ∃ n : Int, some (5 : Int) = some n ∧ n ≠ 0)
    ∧ ∃ j1 ∈ db0.jobs,
        ({ job0 with
            status := JobStatus.completed
            updated_at := 7
            completed_at := some (7 : Nat) } : Job).result_path = j1.result_path
        ∧ ({ job0 with
            status := JobStatus.completed
            updated_at := 7
            completed_at := some (7 : Nat) } : Job).error = j1.error
        ∧ ({ job0 with
            status := JobStatus.completed
            updated_at := 7
            completed_at := some (7 : Nat) } : Job).processing_time = j1.processing_time := by
  refine ⟨(claim_c9_truthiness_gating fs0 7 1 db0).1.1, ?_, ?_⟩
  · exact (claim_c9_truthiness_gating fs0 7 1 db0).2 JobStatus.completed none none
      (some 5) (by decide)
  · exact (claim_c9_truthiness_gating fs0 7 1 db0).1.2 _ (by decide)

/-- C7: `stop()` is idempotent and flips the running flag to false; the join
bound in the source is 5 seconds per worker (`stop_join_timeout_seconds`); a
worker observing the false flag at its next check dequeues nothing, leaves
every queue untouched, and exits its loop (its thread stops being alive).  In
particular no new jobs are dequeued after `stop()` begins. -/
theorem claim_c7_stop_semantics (s : SchedulerState) (tid : Nat) :
    scheduler_stop (scheduler_stop s) = scheduler_stop s
    ∧ (scheduler_stop s).running = false
    ∧ stop_join_timeout_seconds = 5
    ∧ (worker_step (scheduler_stop s) tid).2 = none
    ∧ (worker_step (scheduler_stop s) tid).1.queues = (scheduler_stop s).queues
    ∧ ∀ b : Bool, alist_find tid s.workers = some b →
        alist_find tid (worker_step (scheduler_stop s) tid).1.workers = some false := by
  have hrun : (scheduler_stop s).running = false := by
    cases hr : s.running <;> simp [scheduler_stop, hr]
  have hw : (scheduler_stop s).workers = s.workers := by
    cases hr : s.running <;> simp [scheduler_stop, hr]
  refine ⟨?_, hrun, rfl, ?_, ?_, ?_⟩
  · cases hr : s.running <;> simp [scheduler_stop, hr]
  · simp [worker_step, hrun]
  · simp [worker_step, hrun]
  · intro b hb
    simp only [worker_step, hrun, Bool.false_eq_true, if_false]
    rw [hw, alist_find_replace_self, hb]
    rfl

/-- Witness for C7 at a one-worker scheduler state. -/
theorem claim_c7_stop_semantics_witness :
    (worker_step (scheduler_stop
        { queues := [(2, [((1 : Int), 1)])], workers := [(2, true)], running := true }) 2).2
      = none
    ∧ alist_find 2 (worker_step (scheduler_stop
        { queues := [(2, [((1 : Int), 1)])], workers := [(2, true)], running := true }) 2).1.workers
      = some false := by
  refine ⟨(claim_c7_stop_semantics _ 2).2.2.2.1, ?_⟩
  exact (claim_c7_stop_semantics
    { queues := [(2, [((1 : Int), 1)])], workers := [(2, true)], running := true } 2).2.2.2.2.2
    true (by rfl)

/-- C10: with the scheduler stopped (running flag false) and the tenant's
previous worker exited, `enqueue_job` still succeeds: the entry is pushed onto
the tenant queue and a fresh worker thread is spawned (alive); but the
scheduler stays stopped, and the new worker's first loop check observes the
false flag and exits immediately — it dequeues nothing and the queue keeps the
entry, so the job is never processed while the scheduler remains stopped. -/
theorem claim_c10_enqueue_after_stop (s : SchedulerState) (jid tid : Nat)
    (priority : Int) (hrun : s.running = false)
    (hworker : alist_find tid s.workers = some false) :
    (priority, jid) ∈ (alist_find tid (enqueue_job s jid tid priority).queues).getD []
    ∧ alist_find tid (enqueue_job s jid tid priority).workers = some true
    ∧ (enqueue_job s jid tid priority).running = false
    ∧ (worker_step (enqueue_job s jid tid priority) tid).2 = none
    ∧ (worker_step (enqueue_job s jid tid priority) tid).1.queues
        = (enqueue_job s jid tid priority).queues
    ∧ alist_find tid (worker_step (enqueue_job s jid tid priority) tid).1.workers
        = some false := by
  have hfind2 : ∃ q0 : List Entry,
      alist_find tid (enqueue_job s jid tid priority).queues
        = some (q0 ++ [(priority, jid)])
      ∧ alist_find tid (enqueue_job s jid tid priority).workers = some true
      ∧ (enqueue_job s jid tid priority).running = false := by
    cases hq : alist_find tid s.queues with
    | none =>
        have happ : alist_find tid (s.queues ++ [(tid, [])]) = some ([] : List Entry) := by
          rw [alist_find_append, hq]
          simp [alist_find]
        refine ⟨[], ?_, ?_, ?_⟩
        · simp only [enqueue_job, hq, Option.isNone_none, if_true, hworker,
            Bool.not_false, happ, Option.getD_some]
          rw [alist_find_replace_self]
          simp [happ]
        · simp only [enqueue_job, hq, Option.isNone_none, if_true, hworker,
            Bool.not_false, happ, Option.getD_some]
          exact alist_find_upsert_self tid true s.workers
        · simp only [enqueue_job, hq, Option.isNone_none, if_true, hworker,
            Bool.not_false, happ, Option.getD_some]
          exact hrun
    | some q1 =>
        refine ⟨q1, ?_, ?_, ?_⟩
        · simp only [enqueue_job, hq, Option.isNone_some, Bool.false_eq_true,
            if_false, if_true, hworker, Bool.not_false, Option.getD_some]
          rw [alist_find_replace_self]
          simp [hq]
        · simp only [enqueue_job, hq, Option.isNone_some, Bool.false_eq_true,
            if_false, hworker, Bool.not_false, Option.getD_some]
          exact alist_find_upsert_self tid true s.workers
        · simp only [enqueue_job, hq, Option.isNone_some, Bool.false_eq_true,
            if_false, hworker, Bool.not_false, Option.getD_some]
          exact hrun
  obtain ⟨q0, hfindq, hfindw, hrun2⟩ := hfind2
  refine ⟨?_, hfindw, hrun2, ?_, ?_, ?_⟩
  · rw [hfindq]
    simp
  · simp [worker_step, hrun2]
  · simp [worker_step, hrun2]
  · simp only [worker_step, hrun2, Bool.false_eq_true, if_false]
    rw [alist_find_replace_self, hfindw]
    rfl

/-- Witness for C10: a stopped scheduler whose tenant-2 worker has exited. -/
theorem claim_c10_enqueue_after_stop_witness :
    ((9 : Int), 1) ∈ (alist_find 2 (enqueue_job
        { queues := [(2, [])], workers := [(2, false)], running := false } 1 2 9).queues).getD []
    ∧ alist_find 2 (enqueue_job
        { queues := [(2, [])], workers := [(2, false)], running := false } 1 2 9).workers
      = some true
    ∧ (worker_step (enqueue_job
        { queues := [(2, [])], workers := [(2, false)], running := false } 1 2 9) 2).2 = none := by
  have h := claim_c10_enqueue_after_stop
    { queues := [(2, [])], workers := [(2, false)], running := false } 1 2 9 (by rfl) (by rfl)
  exact ⟨h.1, h.2.1, h.2.2.2.1⟩

/-- C8: a client message whose type is none of subscribe/unsubscribe/ping is
answered with `\x7b"type":"error","message":"Unknown message type: <t>"\x7d`
where `<t>` is the received type; a malformed payload — invalid JSON or a
processing exception — is answered with an error message; in every case the
handler leaves the connection open. -/
theorem claim_c8_unknown_and_malformed (db : DB) (tid uid : Nat) (d : MsgData)
    (t : String) (ht : d.type = some t) (h1 : t ≠ "subscribe")
    (h2 : t ≠ "unsubscribe") (h3 : t ≠ "ping") :
    handle_client_text db tid uid (some d)
      = ([OutMessage.errorMsg ("Unknown message type: " ++ t)], false)
    ∧ handle_client_text db tid uid none
      = ([OutMessage.errorMsg "Invalid JSON message"], false)
    ∧ (∀ p : Option MsgData, (handle_client_text db tid uid p).2 = false)
    ∧ (∀ (d2 : MsgData) (e : String), process_message db tid uid d2 = Except.error e →
        handle_client_text db tid uid (some d2) = ([OutMessage.errorMsg e], false)) := by
  refine ⟨?_, rfl, ?_, ?_⟩
  · simp only [handle_client_text, process_message, ht]
    rw [if_neg (by simp [h1]), if_neg (by simp [h2]), if_neg (by simp [h3])]
    rfl
  · intro p
    cases p with
    | none => rfl
    | some d2 =>
        cases hpm : process_message db tid uid d2 with
        | ok ms => simp [handle_client_text, hpm]
        | error e => simp [handle_client_text, hpm]
  · intro d2 e hpm
    simp [handle_client_text, hpm]

/-- Witness for C8: an unknown `bogus` type gets the unknown-type error; a
subscribe with an unparseable job id raises and gets an error reply, with the
connection left open in both cases. -/
theorem claim_c8_unknown_and_malformed_witness :
    handle_client_text db0 2 3 (some { type := some "bogus", job_id := none, role := none })
      = ([OutMessage.errorMsg ("Unknown message type: " ++ "bogus")], false)
    ∧ handle_client_text db0 2 3 (some { type := some "subscribe", job_id := none, role := none })
      = ([OutMessage.errorMsg "invalid job id"], false) := by
  have h := claim_c8_unknown_and_malformed db0 2 3
    { type := some "bogus", job_id := none, role := none } "bogus" rfl
    (by decide) (by decide) (by decide)
  exact ⟨h.1, h.2.2.2 _ _ (by rfl)⟩

/-- C4: `broadcast_job_update` delivers the built `job_update` message once per
occurrence in the subscribed-connections scan plus once per occurrence in the
owner's connection list, with no deduplication: a connection registered once
for the owning user and subscribed to the job receives the message exactly
twice per update. -/
theorem claim_c4_broadcast_no_dedup (reg : ConnectionRegistry) (jid tid uid : Nat)
    (status : String) (result : Option (List (String × String))) :
    (∀ c : Nat, ((broadcast_job_update reg jid tid uid status result).map Prod.fst).count c
        = (subscribed_conns reg jid).count c + (conns_of reg tid uid).count c)
    ∧ (∀ p ∈ broadcast_job_update reg jid tid uid status result,
        p.2 = mk_job_update_message jid status result)
    ∧ (∀ c : Nat, (subscribed_conns reg jid).count c = 1 →
        (conns_of reg tid uid).count c = 1 →
        ((broadcast_job_update reg jid tid uid status result).map Prod.fst).count c = 2) := by
  have haux : ∀ (m : JobUpdateMessage) (l : List Nat),
      (l.map (fun c => (c, m))).map Prod.fst = l := by
    intro m l
    induction l with
    | nil => rfl
    | cons a as ih =>
        simp only [List.map_cons]
        rw [ih]
  have hmap : (broadcast_job_update reg jid tid uid status result).map Prod.fst
      = subscribed_conns reg jid ++ conns_of reg tid uid := by
    show ((subscribed_conns reg jid ++ conns_of reg tid uid).map
      (fun c => (c, mk_job_update_message jid status result))).map Prod.fst
      = subscribed_conns reg jid ++ conns_of reg tid uid
    exact haux _ _
  refine ⟨?_, ?_, ?_⟩
  · intro c
    rw [hmap, List.count_append]
  · intro p hp
    unfold broadcast_job_update at hp
    rcases List.mem_map.mp hp with ⟨c, _, hc⟩
    exact hc ▸ rfl
  · intro c h1 h2
    rw [hmap, List.count_append, h1, h2]

/-- Witness for C4: connection 7 is both the owner's only connection and
subscribed to job 1, and receives the update twice. -/
theorem claim_c4_broadcast_no_dedup_witness :
    ((broadcast_job_update { active := [(2, [(3, [7])])], subs := [(7, [1])] }
        1 2 3 "completed" none).map Prod.fst).count 7 = 2 :=
  (claim_c4_broadcast_no_dedup { active := [(2, [(3, [7])])], subs := [(7, [1])] }
    1 2 3 "completed" none).2.2 7 (by decide) (by decide)

/-
Helper lemmas for the connection registry.
-/

theorem alist_find_none_of_keys {α : Type} {l : List (Nat × α)} {k u : Nat}
    (hk : ∀ p ∈ l, p.1 = k) (hu : u ≠ k) : alist_find u l = none := by
  cases hf : alist_find u l with
  | none => rfl
  | some v =>
      have hm := alist_find_some_mem hf
      exact absurd (hk _ hm) hu

theorem alist_replace_eq_nil {α : Type} {k : Nat} {v : α} {l : List (Nat × α)}
    (h : alist_replace k v l = []) : l = [] := by
  cases l with
  | nil => rfl
  | cons p rest => simp [alist_replace] at h

theorem conns_of_none {reg : ConnectionRegistry} {t : Nat} (u : Nat)
    (h : alist_find t reg.active = none) : conns_of reg t u = [] := by
  unfold conns_of
  rw [h]

theorem conns_of_some {reg : ConnectionRegistry} {t : Nat} (u : Nat)
    {users : List (Nat × List Nat)} (h : alist_find t reg.active = some users) :
    conns_of reg t u = (alist_find u users).getD [] := by
  unfold conns_of
  rw [h]

/-- Case analysis of the `active` registry after `disconnect`: untouched when
the tenant or user key is missing; otherwise the user's list loses the
connection, with the user entry pruned when its list became empty and the
tenant entry pruned when its user dict became empty. -/
theorem disconnect_active_cases (reg : ConnectionRegistry) (c tid uid : Nat) :
    ((disconnect reg c tid uid).active = reg.active
      ∧ (alist_find tid reg.active = none
        ∨ ∃ users, alist_find tid reg.active = some users ∧ alist_find uid users = none))
    ∨ ∃ users conns, alist_find tid reg.active = some users
        ∧ alist_find uid users = some conns
        ∧ ((remove_first c conns = [] ∧ alist_erase uid users = []
              ∧ (disconnect reg c tid uid).active = alist_erase tid reg.active)
          ∨ (remove_first c conns = [] ∧ alist_erase uid users ≠ []
              ∧ (disconnect reg c tid uid).active
                  = alist_replace tid (alist_erase uid users) reg.active)
          ∨ (remove_first c conns ≠ []
              ∧ (disconnect reg c tid uid).active
                  = alist_replace tid (alist_replace uid (remove_first c conns) users)
                      reg.active)) := by
  cases h1 : alist_find tid reg.active with
  | none => exact Or.inl ⟨by simp [disconnect, h1], Or.inl rfl⟩
  | some users =>
      cases h2 : alist_find uid users with
      | none => exact Or.inl ⟨by simp [disconnect, h1, h2], Or.inr ⟨users, rfl, h2⟩⟩
      | some conns =>
          refine Or.inr ⟨users, conns, rfl, h2, ?_⟩
          by_cases h3 : remove_first c conns = []
          · by_cases h4 : alist_erase uid users = []
            · exact Or.inl ⟨h3, h4, by simp [disconnect, h1, h2, h3, h4]⟩
            · exact Or.inr (Or.inl ⟨h3, h4, by simp [disconnect, h1, h2, h3, h4]⟩)
          · have hne2 : alist_replace uid (remove_first c conns) users ≠ [] := by
              intro hh
              exact absurd (alist_replace_eq_nil hh)
                (List.ne_nil_of_mem (alist_find_some_mem h2))
            exact Or.inr (Or.inr ⟨h3, by simp [disconnect, h1, h2, h3, hne2]⟩)

/-- C6: after `disconnect(conn, tenant, user)` — assuming the reachable-state
invariants that dict keys are unique, that the connection is registered only
under its own `(tenant, user)` pair and at most once there — the connection
appears in no tenant/user list and has no subscription entry; empty user and
tenant branches stay pruned; every other connection's registration and
subscription lookup is unchanged.  `disconnect` is a total function on
arbitrary registries, including never- or partially-registered connections:
every removal in the source is membership-guarded and never raises. -/
theorem claim_c6_disconnect_cleanup (reg : ConnectionRegistry) (c tid uid : Nat)
    (hwf1 : (reg.active.map Prod.fst).Nodup)
    (honly : ∀ p ∈ reg.active, ∀ q ∈ p.2, p.1 ≠ tid ∨ q.1 ≠ uid → c ∉ q.2)
    (honce : ∀ p ∈ reg.active, ∀ q ∈ p.2, q.2.count c ≤ 1) :
    (∀ p ∈ (disconnect reg c tid uid).active, ∀ q ∈ p.2, c ∉ q.2)
    ∧ alist_find c (disconnect reg c tid uid).subs = none
    ∧ ((∀ p ∈ reg.active, p.2 ≠ [] ∧ ∀ q ∈ p.2, q.2 ≠ []) →
        ∀ p ∈ (disconnect reg c tid uid).active, p.2 ≠ [] ∧ ∀ q ∈ p.2, q.2 ≠ [])
    ∧ (∀ c2 : Nat, c2 ≠ c → ∀ t u : Nat,
        (c2 ∈ conns_of (disconnect reg c tid uid) t u ↔ c2 ∈ conns_of reg t u))
    ∧ (∀ c2 : Nat, c2 ≠ c →
        alist_find c2 (disconnect reg c tid uid).subs = alist_find c2 reg.subs) := by
  have hsubs : (disconnect reg c tid uid).subs = alist_erase c reg.subs := rfl
  have hcase := disconnect_active_cases reg c tid uid
  refine ⟨?_, ?_, ?_, ?_, ?_⟩
  · rcases hcase with ⟨hact, hmiss⟩ | ⟨users, conns, h1, h2, hsub⟩
    · rw [hact]
      intro p hp q hq hmem
      rcases hmiss with hm | ⟨users, h1, h2⟩
      · exact honly p hp q hq (Or.inl (alist_find_eq_none_mem hm p hp)) hmem
      · by_cases hp1 : p.1 = tid
        · have hpe : p = (tid, users) := alist_find_nodup_eq hwf1 h1 p hp hp1
          have hq2 : q ∈ users := by rw [hpe] at hq; exact hq
          exact honly p hp q hq (Or.inr (alist_find_eq_none_mem h2 q hq2)) hmem
        · exact honly p hp q hq (Or.inl hp1) hmem
    · have hmu : (tid, users) ∈ reg.active := alist_find_some_mem h1
      have hmc : (uid, conns) ∈ users := alist_find_some_mem h2
      rcases hsub with ⟨h3, h4, hact⟩ | ⟨h3, h4, hact⟩ | ⟨h3, hact⟩
      · rw [hact]
        intro p hp q hq hmem
        have hpe := mem_alist_erase.mp hp
        exact honly p hpe.1 q hq (Or.inl hpe.2) hmem
      · rw [hact]
        intro p hp q hq hmem
        rcases mem_alist_replace hp with hpe | ⟨hpm, hpne⟩
        · subst hpe
          have hqe := mem_alist_erase.mp hq
          exact honly (tid, users) hmu q hqe.1 (Or.inr hqe.2) hmem
        · exact honly p hpm q hq (Or.inl hpne) hmem
      · rw [hact]
        intro p hp q hq hmem
        rcases mem_alist_replace hp with hpe | ⟨hpm, hpne⟩
        · subst hpe
          rcases mem_alist_replace hq with hqe | ⟨hqm, hqne⟩
          · subst hqe
            exact not_mem_remove_first_of_count (honce (tid, users) hmu (uid, conns) hmc) hmem
          · exact honly (tid, users) hmu q hqm (Or.inr hqne) hmem
        · exact honly p hpm q hq (Or.inl hpne) hmem
  · rw [hsubs]
    exact alist_find_erase_self c reg.subs
  · intro hnoempty
    rcases hcase with ⟨hact, -⟩ | ⟨users, conns, h1, h2, hsub⟩
    · rw [hact]
      exact hnoempty
    · have hmu : (tid, users) ∈ reg.active := alist_find_some_mem h1
      rcases hsub with ⟨h3, h4, hact⟩ | ⟨h3, h4, hact⟩ | ⟨h3, hact⟩
      · rw [hact]
        intro p hp
        exact hnoempty p (mem_alist_erase.mp hp).1
      · rw [hact]
        intro p hp
        rcases mem_alist_replace hp with hpe | ⟨hpm, -⟩
        · subst hpe
          refine ⟨h4, ?_⟩
          intro q hq
          exact (hnoempty (tid, users) hmu).2 q (mem_alist_erase.mp hq).1
        · exact hnoempty p hpm
      · rw [hact]
        intro p hp
        rcases mem_alist_replace hp with hpe | ⟨hpm, -⟩
        · subst hpe
          constructor
          · intro hh
            exact (hnoempty (tid, users) hmu).1 (alist_replace_eq_nil hh)
          · intro q hq
            rcases mem_alist_replace hq with hqe | ⟨hqm, -⟩
            · subst hqe
              exact h3
            · exact (hnoempty (tid, users) hmu).2 q hqm
        · exact hnoempty p hpm
  · intro c2 hc2 t u
    rcases hcase with ⟨hact, -⟩ | ⟨users, conns, h1, h2, hsub⟩
    · unfold conns_of
      rw [hact]
    · have hnc : remove_first c conns = [] → c2 ∉ conns := by
        intro h3 hmem
        exact hc2 (remove_first_eq_nil h3 c2 hmem)
      rcases hsub with ⟨h3, h4, hact⟩ | ⟨h3, h4, hact⟩ | ⟨h3, hact⟩
      · by_cases ht : t = tid
        · subst ht
          rw [conns_of_none u (by rw [hact]; exact alist_find_erase_self t reg.active)]
          rw [conns_of_some u h1]
          by_cases hu : u = uid
          · subst hu
            rw [h2]
            simp [hnc h3]
          · rw [alist_find_none_of_keys (alist_erase_eq_nil h4) hu]
            simp
        · cases hf : alist_find t reg.active with
          | none =>
              rw [conns_of_none u (by rw [hact, alist_find_erase_ne ht]; exact hf),
                conns_of_none u hf]
          | some us =>
              rw [conns_of_some u (by rw [hact, alist_find_erase_ne ht]; exact hf),
                conns_of_some u hf]
      · by_cases ht : t = tid
        · subst ht
          have hfr : alist_find t (disconnect reg c t uid).active
              = some (alist_erase uid users) := by
            rw [hact, alist_find_replace_self, h1]
            rfl
          rw [conns_of_some u hfr, conns_of_some u h1]
          by_cases hu : u = uid
          · subst hu
            rw [alist_find_erase_self, h2]
            simp [hnc h3]
          · rw [alist_find_erase_ne hu]
        · cases hf : alist_find t reg.active with
          | none =>
              rw [conns_of_none u (by rw [hact, alist_find_replace_ne ht]; exact hf),
                conns_of_none u hf]
          | some us =>
              rw [conns_of_some u (by rw [hact, alist_find_replace_ne ht]; exact hf),
                conns_of_some u hf]
      · by_cases ht : t = tid
        · subst ht
          have hfr : alist_find t (disconnect reg c t uid).active
              = some (alist_replace uid (remove_first c conns) users) := by
            rw [hact, alist_find_replace_self, h1]
            rfl
          rw [conns_of_some u hfr, conns_of_some u h1]
          by_cases hu : u = uid
          · subst hu
            rw [alist_find_replace_self, h2]
            simp only [Option.map_some, Option.getD_some]
            exact mem_remove_first_of_ne hc2
          · rw [alist_find_replace_ne hu]
        · cases hf : alist_find t reg.active with
          | none =>
              rw [conns_of_none u (by rw [hact, alist_find_replace_ne ht]; exact hf),
                conns_of_none u hf]
          | some us =>
              rw [conns_of_some u (by rw [hact, alist_find_replace_ne ht]; exact hf),
                conns_of_some u hf]
  · intro c2 hc2
    rw [hsubs]
    exact alist_find_erase_ne hc2 reg.subs

/-- Witness for C6: disconnecting connection 7 (tenant 2, user 3) removes it
from every list and subscription, and leaves other connections' lookups
unchanged. -/
theorem claim_c6_disconnect_cleanup_witness :
    (∀ p ∈ (disconnect { active := [(2, [(3, [7])])], subs := [(7, [1])] } 7 2 3).active,
        ∀ q ∈ p.2, 7 ∉ q.2)
    ∧ alist_find 7 (disconnect { active := [(2, [(3, [7])])], subs := [(7, [1])] } 7 2 3).subs
        = none
    ∧ (9 ∈ conns_of (disconnect { active := [(2, [(3, [7])])], subs := [(7, [1])] } 7 2 3) 2 3
        ↔ 9 ∈ conns_of { active := [(2, [(3, [7])])], subs := [(7, [1])] } 2 3) := by
  have h := claim_c6_disconnect_cleanup { active := [(2, [(3, [7])])], subs := [(7, [1])] }
    7 2 3 (by decide) (by decide) (by decide)
  exact ⟨h.1, h.2.1, h.2.2.2.1 9 (by decide) 2 3⟩

end WhisperQueue
